import Mathlib

/-!
Verification of the sqlmodel code generator (github.com/Ficoto/sqlmodel).

The generator inspects a relational database schema and emits one Go source
file per table: a struct mirroring the table's columns, an optional
`import "time"` line, an optional gorm tag per field, and a `TableName`
accessor.  Strings are modelled as lists of runes (Unicode code points as
`Nat`), matching Go's `for _, r := range s` iteration; `str` embeds a Lean
string literal as such a list.

The Go standard-library character primitives (`unicode.IsLetter`,
`unicode.IsDigit`, `unicode.IsUpper`, `unicode.ToUpper`, `unicode.ToLower`,
`strings.EqualFold`) are embedded restricted to code points below 0x100,
where the definitions below agree with the Unicode tables Go uses; code
points at or above 0x100 are classified as non-letters and left fixed by the
case mappings.  Every concrete evaluation below stays inside the faithful
range, and no universal theorem concludes anything about the handling of
code points outside it.
-/

namespace Sqlmodel

/-- Embeds a Lean string literal as a list of runes (code points). -/
def str (s : String) : List Nat := s.data.map Char.toNat

/-- Decidable equality for `Except`, used to evaluate the embedding on
concrete inputs. -/
def exceptDecEq {ε α : Type} [DecidableEq ε] [DecidableEq α] :
    (a b : Except ε α) → Decidable (a = b)
  | .error e1, .error e2 =>
    if h : e1 = e2 then isTrue (congrArg Except.error h)
    else isFalse (fun hc => h (Except.error.inj hc))
  | .ok a1, .ok a2 =>
    if h : a1 = a2 then isTrue (congrArg Except.ok h)
    else isFalse (fun hc => h (Except.ok.inj hc))
  | .error _, .ok _ => isFalse (fun hc => Except.noConfusion hc)
  | .ok _, .error _ => isFalse (fun hc => Except.noConfusion hc)

instance {ε α : Type} [DecidableEq ε] [DecidableEq α] : DecidableEq (Except ε α) := exceptDecEq

/-- Go `unicode.IsLetter`, restricted to code points below 0x100: ASCII
letters plus the Latin-1 letters ª µ º À–Ö Ø–ö ø–ÿ. -/
def goIsLetterRune (n : Nat) : Bool :=
  (65 ≤ n && n ≤ 90) || (97 ≤ n && n ≤ 122) ||
  (n == 0xAA) || (n == 0xB5) || (n == 0xBA) ||
  (0xC0 ≤ n && n ≤ 0xD6) || (0xD8 ≤ n && n ≤ 0xF6) || (0xF8 ≤ n && n ≤ 0xFF)

/-- Go `unicode.IsDigit`, restricted to code points below 0x100: the ASCII
digits (no other code point below 0x100 is in category Nd). -/
def goIsDigitRune (n : Nat) : Bool :=
  48 ≤ n && n ≤ 57

/-- Go `unicode.IsUpper`, restricted to code points below 0x100: A–Z and the
Latin-1 capitals À–Ö Ø–Þ. -/
def goIsUpperRune (n : Nat) : Bool :=
  (65 ≤ n && n ≤ 90) || (0xC0 ≤ n && n ≤ 0xD6) || (0xD8 ≤ n && n ≤ 0xDE)

/-- Go `unicode.ToUpper` (simple case mapping), restricted to code points
below 0x100: a–z and à–þ (except ÷) shift down by 32, µ maps to Greek Μ,
ÿ maps to Ÿ, everything else (including ß) is fixed. -/
def goToUpperRune (n : Nat) : Nat :=
  if 97 ≤ n && n ≤ 122 then n - 32
  else if n == 0xB5 then 0x39C
  else if (0xE0 ≤ n && n ≤ 0xFE) && !(n == 0xF7) then n - 32
  else if n == 0xFF then 0x178
  else n

/-- Go `unicode.ToLower` (simple case mapping), restricted to code points
below 0x100: A–Z and À–Þ (except ×) shift up by 32, everything else fixed. -/
def goToLowerRune (n : Nat) : Nat :=
  if 65 ≤ n && n ≤ 90 then n + 32
  else if (0xC0 ≤ n && n ≤ 0xDE) && !(n == 0xD7) then n + 32
  else n

/-- Go `strings.ToLower` over a rune list. -/
def goToLowerList (s : List Nat) : List Nat := s.map goToLowerRune

/-- Go `strings.EqualFold` over rune lists, restricted to code points below
0x100, where simple-case-fold equivalence coincides with equality after
`goToLowerRune` (the fold orbits that leave this range, such as K/k/KELVIN
SIGN, link a char below 0x100 only to chars above it). -/
def goEqualFold : List Nat → List Nat → Bool
  | [], [] => true
  | a :: as, b :: bs => (goToLowerRune a == goToLowerRune b) && goEqualFold as bs
  | _, _ => false

/-- Spec-side predicate: an ASCII identifier character ([0-9A-Za-z_]). -/
def isAsciiIdentChar (n : Nat) : Bool :=
  (65 ≤ n && n ≤ 90) || (97 ≤ n && n ≤ 122) || (48 ≤ n && n ≤ 57) || (n == 95)

/-! ## Identifier normalizer (`convertToExportedIdentifier`, part_001 lines 100–135) -/

/-- Appends a rune to the last word, mirroring `words[len(words)-1] += string(r)`;
the empty-list branch is unreachable because the caller only takes it when at
least one word has already been started. -/
def appendToLast : List (List Nat) → Nat → List (List Nat)
  | [], _ => []
  | [w], r => [w ++ [r]]
  | w :: ws, r => w :: appendToLast ws r

/-- One iteration of the word-splitting loop: the state is the word list so
far and the `nextCharShouldBeUpperCase` flag. -/
def stepWord (acc : List (List Nat) × Bool) (r : Nat) : List (List Nat) × Bool :=
  if goIsLetterRune r || goIsDigitRune r then
    if acc.2 then (acc.1 ++ [[goToUpperRune r]], false)
    else (appendToLast acc.1 r, false)
  else (acc.1, true)

/-- Splits a raw name into words: maximal runs of letters/digits, the first
rune of each upper-cased. -/
def splitWords (s : List Nat) : List (List Nat) :=
  (s.foldl stepWord ([], true)).1

/-- Replaces a word by the first force-case word it case-insensitively
equals, mirroring the inner loop with its `break`. -/
def applyForceCase (forceCases : List (List Nat)) (w : List Nat) : List Nat :=
  match forceCases.find? (fun cw => goEqualFold w cw) with
  | some cw => cw
  | none => w

/-- Final fix-up: prepend `E` when the concatenation is empty or does not
start with an upper-case rune. -/
def exportPrefixFix (result : List Nat) : List Nat :=
  match result with
  | [] => [69]
  | r :: _ => if goIsUpperRune r then result else 69 :: result

/-- Go `convertToExportedIdentifier` (part_001 lines 100–135). -/
def convertToExportedIdentifier (s : List Nat) (forceCases : List (List Nat)) : List Nat :=
  exportPrefixFix (((splitWords s).map (applyForceCase forceCases)).foldl (· ++ ·) [])

/-! ## Package identifier (`ensureIdentifier`, part_001 lines 46–62) -/

/-- A word character of Go's regexp `\w` class: `[0-9A-Za-z_]` (RE2 Perl
classes are ASCII-only). -/
def isWordCharRune (n : Nat) : Bool :=
  (48 ≤ n && n ≤ 57) || (65 ≤ n && n ≤ 90) || (97 ≤ n && n ≤ 122) || (n == 95)

/-- Result of `nonIdentifierRegexp.ReplaceAllString(name, "_")`: every rune
matching `\W` is replaced by an underscore. -/
def substituted (name : List Nat) : List Nat :=
  name.map (fun c => if isWordCharRune c then c else 95)

/-- Go `ensureIdentifier` (part_001 lines 48–54): substitute non-word runes,
then prepend `_` when the result is empty or starts with a digit.  After the
substitution every rune is ASCII, so Go's byte test `result[0]` inspects the
first rune. -/
def ensureIdentifier (name : List Nat) : List Nat :=
  match substituted name with
  | [] => [95]
  | c :: _ => if 48 ≤ c && c ≤ 57 then 95 :: substituted name else substituted name

/-- Text produced by `newBuffWithBaseHeader` (part_001 lines 56–62); note the
trailing space after the package name, from `"package %s \n\n"`. -/
def baseHeader (dbName : List Nat) : List Nat :=
  str "// This file is generated by sqlmodel (https://github.com/Ficoto/sqlmodel)\n" ++
  str "// DO NOT EDIT.\n" ++
  str "package " ++ ensureIdentifier dbName ++ str " \n\n"

/-! ## Type mapper (`getType`, part_001 lines 137–175) -/

/-- A column descriptor as produced by a schema fetcher (part_001 lines
22–29).  The Go field `Type` is spelled `typ` because `Type` is reserved in
Lean. -/
structure fieldDescriptor where
  Name : List Nat
  typ : List Nat
  Size : Int
  Unsigned : Bool
  AllowNull : Bool
  Comment : List Nat
deriving DecidableEq

/-- First-match lookup over a switch's case table: a Go `switch` on a string
with constant, pairwise-distinct case values selects the entry whose value
list contains the scrutinee. -/
def switchLookup (t : List Nat) : List (List (List Nat) × List Nat) → Option (List Nat)
  | [] => none
  | (keys, v) :: rest => if t ∈ keys then some v else switchLookup t rest

/-- The constant cases of Go `getType`'s switch (part_001 lines 138–157),
in source order; the `bit` case, whose result depends on the size, is kept
out of the table and tested separately in `getTypeBase`. -/
def getTypeCases : List (List (List Nat) × List Nat) :=
  [([str "tinyint"], str "int8"),
   ([str "smallint"], str "int16"),
   ([str "int", str "mediumint"], str "int32"),
   ([str "bigint", str "integer"], str "int64"),
   ([str "float", str "double", str "decimal", str "real"], str "float64"),
   ([str "char", str "varchar", str "text", str "tinytext", str "mediumtext",
     str "longtext", str "enum", str "json", str "numeric", str "character varying"],
    str "string"),
   ([str "datetime", str "date", str "time", str "timestamp"], str "time.Time"),
   ([str "binary", str "varbinary", str "blob", str "tinyblob", str "mediumblob",
     str "longblob"], str "string"),
   ([str "geometry", str "point", str "linestring", str "polygon", str "multipoint",
     str "multilinestring", str "multipolygon", str "geometrycollection"],
    str "sqlingo.WellKnownBinary")]

/-- The switch of Go `getType` (part_001 lines 138–167) over the lower-cased
declared type `t`; `size` is the descriptor's size (for `bit`, lines
158–163) and `orig` the original declared type (for the error message of the
default case, lines 164–166).  Testing `bit` after the table is faithful
because switch cases are pairwise distinct, so at most one matches. -/
def getTypeBase (t : List Nat) (size : Int) (orig : List Nat) : Except (List Nat) (List Nat) :=
  match switchLookup t getTypeCases with
  | some g => .ok g
  | none =>
    if t = str "bit" then .ok (if size = 1 then str "bool" else str "string")
    else .error (str "unknown field type " ++ orig)

/-- The tail of Go `getType` (part_001 lines 168–173): prepend `u` when the
descriptor is unsigned and the resolved type starts with `int`, then prepend
`*` when the descriptor allows null. -/
def applyUnsignedNull (g : List Nat) (unsigned allowNull : Bool) : List Nat :=
  let g1 := if unsigned && (str "int").isPrefixOf g then str "u" ++ g else g
  if allowNull then str "*" ++ g1 else g1

/-- Go `getType` (part_001 lines 137–175). -/
def getType (fd : fieldDescriptor) : Except (List Nat) (List Nat) :=
  match getTypeBase (goToLowerList fd.typ) fd.Size fd.typ with
  | .error e => .error e
  | .ok g => .ok (applyUnsignedNull g fd.Unsigned fd.AllowNull)

/-- Modelled from the spec (section 4.1): the documented fixed lookup table
for the supported non-`bit` types — integer-family types to sized signed
integers of increasing width, floating/decimal types to a 64-bit float,
character/text/enum/json/numeric types to a string type, the date/time
family to the timestamp type, the binary/blob family to a string type, and
spatial types to the well-known-binary type. -/
def specTypeTable : List (List (List Nat) × List Nat) :=
  [([str "tinyint"], str "int8"),
   ([str "smallint"], str "int16"),
   ([str "int", str "mediumint"], str "int32"),
   ([str "bigint", str "integer"], str "int64"),
   ([str "float", str "double", str "decimal", str "real"], str "float64"),
   ([str "char", str "varchar", str "text", str "tinytext", str "mediumtext",
     str "longtext", str "enum", str "json", str "numeric", str "character varying"],
    str "string"),
   ([str "datetime", str "date", str "time", str "timestamp"], str "time.Time"),
   ([str "binary", str "varbinary", str "blob", str "tinyblob", str "mediumblob",
     str "longblob"], str "string"),
   ([str "geometry", str "point", str "linestring", str "polygon", str "multipoint",
     str "multilinestring", str "multipolygon", str "geometrycollection"],
    str "sqlingo.WellKnownBinary")]

/-- Modelled from the spec (section 4.1): the documented base host type for a
lower-cased declared type and a declared size — a lookup in the fixed table,
with `bit` mapping to boolean when the size is exactly 1 and to string
otherwise. -/
def specBaseType (t : List Nat) (size : Int) : Option (List Nat) :=
  match switchLookup t specTypeTable with
  | some g => some g
  | none =>
    if t = str "bit" then some (if size = 1 then str "bool" else str "string")
    else none

/-- Modelled from the spec (sections 4.1 and 8): the documented host type for
a base type from the lookup table, widened to its unsigned counterpart iff
the unsigned flag is set and the base is an integer type, and wrapped as a
pointer iff the nullable flag is set. -/
def specMappedType (base : List Nat) (unsigned allowNull : Bool) : List Nat :=
  (if allowNull then str "*" else []) ++
  (if unsigned && decide (base ∈ [str "int8", str "int16", str "int32", str "int64"])
    then str "u" else []) ++ base

/-! ## Tag and table rendering (`getTag`, `generateTable`, part_001 lines 177–231) -/

/-- Generation options as used by part_001 (the `tag` and `forceCases`
fields are the ones the renderer reads). -/
structure options where
  dataSourceName : List Nat
  tableNames : List (List Nat)
  tag : List Nat
  forceCases : List (List Nat)
deriving DecidableEq

/-- Go `getTag` (part_001 lines 177–184): only the style `gorm` emits a tag,
carrying the original column name; any other style yields the empty string. -/
def getTag (fd : fieldDescriptor) (opts : options) : List Nat :=
  if opts.tag = str "gorm" then str "`gorm:\"column:" ++ fd.Name ++ str "\"`" else []

/-- The case-sensitive switch at part_001 lines 212–215 deciding whether the
table needs `import "time"`; note that unlike `getType` it inspects the raw
declared type without lower-casing it. -/
def isTimeTyp (t : List Nat) : Bool :=
  t == str "datetime" || t == str "date" || t == str "time" || t == str "timestamp"

/-- Comment flattening, `strings.ReplaceAll(comment, "\n", " ")`. -/
def flattenComment (c : List Nat) : List Nat :=
  c.map (fun r => if r == 10 then 32 else r)

/-- The per-field loop of `generateTable` (part_001 lines 198–216): returns
the struct body lines and the `isNeedImportTime` flag, or the first
`getType` error. -/
def renderFields (opts : options) : List fieldDescriptor → Except (List Nat) (List Nat × Bool)
  | [] => .ok ([], false)
  | fd :: rest =>
    let goName := convertToExportedIdentifier fd.Name opts.forceCases
    match getType fd with
    | .error e => .error e
    | .ok goType =>
      match renderFields opts rest with
      | .error e => .error e
      | .ok (lines, needTime) =>
        let commentLine :=
          if fd.Comment ≠ [] then str "\t// " ++ flattenComment fd.Comment ++ str "\n" else []
        .ok (commentLine ++ str "\t" ++ goName ++ str " " ++ goType ++ str " " ++
              getTag fd opts ++ str "\n" ++ lines,
             isTimeTyp fd.typ || needTime)

/-- The text assembled by `generateTable` (part_001 lines 186–228) for one
table, before it is handed to `writeToFile`; braces in the emitted Go text
are written \x7b and \x7d. -/
def generateTableText (dbName tableName : List Nat) (fds : List fieldDescriptor)
    (opts : options) : Except (List Nat) (List Nat) :=
  match renderFields opts fds with
  | .error e => .error e
  | .ok (modeLines, needTime) =>
    let className := convertToExportedIdentifier tableName opts.forceCases
    .ok (baseHeader dbName ++
      (if needTime then str "import \"time\"\n\n" else []) ++
      str "type " ++ className ++ str " struct \x7b\n" ++
      modeLines ++ str "\x7d\n\n" ++
      (str "func (m " ++ className ++ str ") TableName() string \x7b\n" ++
       str "\treturn \"" ++ tableName ++ str "\"\n\x7d\n\n"))

/-- Go `generateTable` (part_001 lines 186–231) with the schema fetcher
abstracted as a function from table name to field descriptors: fetch the
descriptors, render the text, and return it together with the force flag
passed to `writeToFile` — the call at line 229 hard-codes `true`. -/
def generateTable (fetch : List Nat → Except (List Nat) (List fieldDescriptor))
    (dbName tableName : List Nat) (opts : options) : Except (List Nat) (List Nat × Bool) :=
  match fetch tableName with
  | .error e => .error e
  | .ok fds =>
    match generateTableText dbName tableName fds opts with
    | .error e => .error e
    | .ok txt => .ok (txt, true)

/-! ## File writing (`writeToFile`, part_001 lines 75–98) -/

/-- Outcome of `writeToFile`: a silent skip, a write of the buffer contents
(the file is opened with O_TRUNC, so the file ends up holding exactly the
buffer), or a propagated open error. -/
inductive writeToFileResult where
  | skipped : writeToFileResult
  | wrote : List Nat → writeToFileResult
  | failed : List Nat → writeToFileResult
deriving DecidableEq

/-- Go `writeToFile` (part_001 lines 75–98) with its external effects made
explicit: `fileExists` is the `pathExists` answer, `answer` is what
`fmt.Scanln` read, and `openErr` is the `os.OpenFile` error, if any. -/
def writeToFile (buffer : List Nat) (fileExists force : Bool) (answer : List Nat)
    (openErr : Option (List Nat)) : writeToFileResult :=
  if fileExists && !force then
    if ¬(answer = str "Y") ∧ ¬(answer = str "y") then .skipped
    else
      match openErr with
      | some e => .failed e
      | none => .wrote buffer
  else
    match openErr with
    | some e => .failed e
    | none => .wrote buffer

/-- The error value `writeToFile` returns to its caller: `nil` except when
opening the file failed. -/
def writeToFileErr : writeToFileResult → Option (List Nat)
  | .skipped => none
  | .wrote _ => none
  | .failed e => some e

/-- A file system as a map from paths to contents; writing with O_TRUNC
replaces the contents of the written path. -/
def fileWrite (fs : List Nat → Option (List Nat)) (path content : List Nat) :
    List Nat → Option (List Nat) :=
  fun q => if q = path then some content else fs q

/-! ## Generation loop (`Generate`, part_001 lines 286–292) -/

/-- The table loop of `Generate` (part_001 lines 286–292): render each table
in order, stopping at the first error.  Returns the list of tables for which
`generateTable` was invoked and the error `Generate` returns (`none` for
nil). -/
def GenerateTables (fetch : List Nat → Except (List Nat) (List fieldDescriptor))
    (dbName : List Nat) (opts : options) : List (List Nat) → List (List Nat) × Option (List Nat)
  | [] => ([], none)
  | tn :: ts =>
    match generateTable fetch dbName tn opts with
    | .error e => ([tn], some e)
    | .ok _ =>
      let rest := GenerateTables fetch dbName opts ts
      (tn :: rest.1, rest.2)

/-! ## Fixtures used by concrete witnesses and counterexamples -/

/-- The set of base host types the documented lookup table can produce. -/
def specRange : List (List Nat) :=
  [str "int8", str "int16", str "int32", str "int64", str "float64", str "string",
   str "time.Time", str "sqlingo.WellKnownBinary", str "bool"]

/-- ASCII test for a rune. -/
def isAsciiRune (n : Nat) : Bool := n < 128

/-- Options with every field empty (no tag style, no force-case words). -/
def opts0 : options := ⟨[], [], [], []⟩

/-- Options selecting the gorm tag style. -/
def gormOpts : options := ⟨[], [], str "gorm", []⟩

/-- A column declared with the upper-case type `DATETIME`, not nullable. -/
def dtFd : fieldDescriptor := ⟨str "created_at", str "DATETIME", 0, false, false, []⟩

/-- The same column with the type declared in lower case. -/
def dtFdLower : fieldDescriptor := ⟨str "created_at", str "datetime", 0, false, false, []⟩

/-- An `id INT NOT NULL` column. -/
def fdInt : fieldDescriptor := ⟨str "id", str "int", 0, false, false, []⟩

/-- A column whose declared type `uuid` is not in the lookup table. -/
def fdUuid : fieldDescriptor := ⟨str "x", str "uuid", 0, false, false, []⟩

/-- The text rendered for an empty table `t` of database `d` with no tag
style. -/
def textDT : List Nat :=
  str "// This file is generated by sqlmodel (https://github.com/Ficoto/sqlmodel)\n" ++
  str "// DO NOT EDIT.\npackage d \n\ntype T struct \x7b\n\x7d\n\n" ++
  str "func (m T) TableName() string \x7b\n\treturn \"t\"\n\x7d\n\n"

/-- A fetcher that fails on table "b" and returns no columns otherwise. -/
def fetchW : List Nat → Except (List Nat) (List fieldDescriptor) :=
  fun tn => if tn = str "b" then .error (str "boom") else .ok []

/-! ## Bridging lemmas: the type mapper against the documented table -/

theorem getTypeCases_eq_specTypeTable : getTypeCases = specTypeTable := by decide

theorem getTypeBase_eq_spec (t : List Nat) (size : Int) (orig : List Nat) :
    getTypeBase t size orig =
      (match specBaseType t size with
       | none => Except.error (str "unknown field type " ++ orig)
       | some b => Except.ok b) := by
  unfold getTypeBase specBaseType
  rw [getTypeCases_eq_specTypeTable]
  cases switchLookup t specTypeTable with
  | some g => rfl
  | none =>
    by_cases hb : t = str "bit"
    · simp only [hb, if_pos]
    · simp only [hb, if_neg, ite_false]

theorem switchLookup_mem (t : List Nat) (tbl : List (List (List Nat) × List Nat)) (v : List Nat)
    (h : switchLookup t tbl = some v) : v ∈ tbl.map Prod.snd := by
  induction tbl with
  | nil => exact absurd h (by simp [switchLookup])
  | cons e rest ih =>
    rw [switchLookup] at h
    by_cases hk : t ∈ e.1
    · rw [if_pos hk] at h
      injection h with h
      simp [h]
    · rw [if_neg hk] at h
      simp [ih h]

theorem specBaseType_mem_range (t : List Nat) (size : Int) (b : List Nat)
    (h : specBaseType t size = some b) : b ∈ specRange := by
  unfold specBaseType at h
  cases hl : switchLookup t specTypeTable with
  | some g =>
    rw [hl] at h
    injection h with h
    subst h
    have hm := switchLookup_mem t specTypeTable g hl
    have hsub : ∀ x ∈ specTypeTable.map Prod.snd, x ∈ specRange := by decide
    exact hsub g hm
  | none =>
    rw [hl] at h
    by_cases hb : t = str "bit"
    · rw [if_pos hb] at h
      injection h with h
      subst h
      by_cases hs : size = 1
      · rw [if_pos hs]; decide
      · rw [if_neg hs]; decide
    · rw [if_neg hb] at h
      cases h

theorem applyUnsignedNull_eq_spec (b : List Nat) (hb : b ∈ specRange) (un an : Bool) :
    applyUnsignedNull b un an = specMappedType b un an := by
  simp only [specRange, List.mem_cons, List.not_mem_nil, or_false] at hb
  rcases hb with rfl | rfl | rfl | rfl | rfl | rfl | rfl | rfl | rfl <;>
    cases un <;> cases an <;> decide

theorem getType_eq_spec (fd : fieldDescriptor) :
    getType fd =
      (match specBaseType (goToLowerList fd.typ) fd.Size with
       | none => Except.error (str "unknown field type " ++ fd.typ)
       | some base => Except.ok (specMappedType base fd.Unsigned fd.AllowNull)) := by
  unfold getType
  rw [getTypeBase_eq_spec]
  cases h : specBaseType (goToLowerList fd.typ) fd.Size with
  | none => rfl
  | some base =>
    have hr := specBaseType_mem_range _ _ _ h
    simp only [applyUnsignedNull_eq_spec base hr]

/-! ## Claims -/

/-- C1: for every field descriptor whose lower-cased declared type is in the
documented lookup table, `getType` returns the documented host type, widened
to its unsigned counterpart iff the Unsigned flag is set and the base type is
an integer type, and wrapped as a pointer iff the AllowNull flag is set. -/
theorem c1_type_mapper (fd : fieldDescriptor) (base : List Nat)
    (h : specBaseType (goToLowerList fd.typ) fd.Size = some base) :
    getType fd = Except.ok (specMappedType base fd.Unsigned fd.AllowNull) := by
  rw [getType_eq_spec, h]

/-- Witness for C1: an unsigned nullable `BIGINT` column maps to `*uint64`. -/
theorem c1_type_mapper_witness :
    specBaseType (goToLowerList (str "BIGINT")) 0 = some (str "int64") ∧
    getType ⟨str "n", str "BIGINT", 0, true, true, []⟩ =
      Except.ok (specMappedType (str "int64") true true) ∧
    specMappedType (str "int64") true true = str "*uint64" :=
  ⟨by decide, c1_type_mapper ⟨str "n", str "BIGINT", 0, true, true, []⟩ (str "int64") (by decide),
   by decide⟩

/-- C7: the normalizer satisfies the three documented examples. -/
theorem c7_examples :
    convertToExportedIdentifier (str "user_id") [str "ID"] = str "UserID" ∧
    convertToExportedIdentifier (str "html_content") [str "HTML"] = str "HTMLContent" ∧
    convertToExportedIdentifier (str "2fa_token") [] = str "E2faToken" := by
  decide

set_option maxRecDepth 10000 in
/-- C3: evaluation at the failing input. A column declared `DATETIME` maps to
the host type `time.Time`, yet the import flag stays false because
the import switch compares the raw declared type case-sensitively, so the
rendered file references `time.Time` without importing `time`; declaring the
type in lower case sets the flag. -/
theorem c3_time_import_bug :
    getType dtFd = Except.ok (str "time.Time") ∧
    renderFields opts0 [dtFd] = Except.ok (str "\tCreatedAt time.Time \n", false) ∧
    renderFields opts0 [dtFdLower] = Except.ok (str "\tCreatedAt time.Time \n", true) ∧
    generateTableText (str "db") (str "events") [dtFd] opts0 =
      Except.ok (str "// This file is generated by sqlmodel (https://github.com/Ficoto/sqlmodel)\n// DO NOT EDIT.\npackage db \n\ntype Events struct \x7b\n\tCreatedAt time.Time \n\x7d\n\nfunc (m Events) TableName() string \x7b\n\treturn \"events\"\n\x7d\n\n") := by
  refine ⟨by decide, by decide, by decide, by decide⟩

/-- C6: for a field descriptor whose lower-cased declared type is not in the
lookup table, `getType` fails with an error naming the offending type, and
the table render propagates that error, producing no text for the table,
provided the fields before it resolve. -/
theorem c6_unknown_type (fd : fieldDescriptor)
    (h : specBaseType (goToLowerList fd.typ) fd.Size = none)
    (fds1 fds2 : List fieldDescriptor) (dbName tableName : List Nat) (opts : options)
    (hok : ∀ fd' ∈ fds1, ∃ g, getType fd' = Except.ok g) :
    getType fd = Except.error (str "unknown field type " ++ fd.typ) ∧
    generateTableText dbName tableName (fds1 ++ fd :: fds2) opts =
      Except.error (str "unknown field type " ++ fd.typ) := by
  have hg : getType fd = Except.error (str "unknown field type " ++ fd.typ) := by
    rw [getType_eq_spec, h]
  refine ⟨hg, ?_⟩
  have hr : renderFields opts (fds1 ++ fd :: fds2) =
      Except.error (str "unknown field type " ++ fd.typ) := by
    induction fds1 with
    | nil => simp only [List.nil_append, renderFields, hg]
    | cons a as ih =>
      have ih' := ih (fun x hx => hok x (List.mem_cons_of_mem a hx))
      obtain ⟨g, hgok⟩ := hok a (List.mem_cons_self a as)
      simp only [List.cons_append, renderFields, hgok, List.append_eq]
      rw [ih']
  simp only [generateTableText, hr]

/-- Witness for C6: a table whose second column has the unknown type `uuid`
fails with the error naming `uuid`. -/
theorem c6_unknown_type_witness :
    specBaseType (goToLowerList (str "uuid")) 0 = none ∧
    getType fdUuid = Except.error (str "unknown field type " ++ fdUuid.typ) ∧
    generateTableText (str "d") (str "t") [fdInt, fdUuid] opts0 =
      Except.error (str "unknown field type " ++ fdUuid.typ) := by
  have h := c6_unknown_type fdUuid (by decide) [fdInt] [] (str "d") (str "t") opts0
    (fun fd' hmem => by
      simp only [List.mem_singleton] at hmem
      subst hmem
      exact ⟨str "int32", by decide⟩)
  exact ⟨by decide, h.1, h.2⟩

theorem identChar_of_letterDigit {r : Nat} (hr : r < 128)
    (h : (goIsLetterRune r || goIsDigitRune r) = true) : isAsciiIdentChar r = true := by
  simp only [goIsLetterRune, goIsDigitRune, isAsciiIdentChar, Bool.or_eq_true, Bool.and_eq_true,
    decide_eq_true_eq, beq_iff_eq] at h ⊢
  omega

theorem identChar_goToUpper {r : Nat} (h : isAsciiIdentChar r = true) :
    isAsciiIdentChar (goToUpperRune r) = true := by
  simp only [isAsciiIdentChar, Bool.or_eq_true, Bool.and_eq_true, decide_eq_true_eq,
    beq_iff_eq] at h
  unfold goToUpperRune
  split_ifs with h1 h2 h3 h4 <;>
    simp only [isAsciiIdentChar, Bool.or_eq_true, Bool.and_eq_true, decide_eq_true_eq,
      beq_iff_eq, Bool.not_eq_true'] at * <;>
    omega

theorem identChar_of_foldEq {a b : Nat} (ha : isAsciiIdentChar a = true) (hb : b < 128)
    (h : goToLowerRune a = goToLowerRune b) : isAsciiIdentChar b = true := by
  simp only [isAsciiIdentChar, Bool.or_eq_true, Bool.and_eq_true, decide_eq_true_eq,
    beq_iff_eq] at ha ⊢
  unfold goToLowerRune at h
  split_ifs at h <;>
    simp only [Bool.and_eq_true, decide_eq_true_eq, beq_iff_eq, Bool.not_eq_true',
      Bool.and_eq_false_iff, decide_eq_false_iff_not] at * <;>
    omega

theorem appendToLast_nil (r : Nat) : appendToLast [] r = [] := rfl

theorem appendToLast_single (w : List Nat) (r : Nat) : appendToLast [w] r = [w ++ [r]] := rfl

theorem appendToLast_cons2 (a b : List Nat) (bs : List (List Nat)) (r : Nat) :
    appendToLast (a :: b :: bs) r = a :: appendToLast (b :: bs) r := rfl

theorem appendToLast_mem {ws : List (List Nat)} {r : Nat} {w : List Nat}
    (h : w ∈ appendToLast ws r) : w ∈ ws ∨ ∃ w' ∈ ws, w = w' ++ [r] := by
  induction ws with
  | nil => simp [appendToLast_nil] at h
  | cons a as ih =>
    cases as with
    | nil =>
      rw [appendToLast_single, List.mem_singleton] at h
      exact Or.inr ⟨a, List.mem_singleton_self a, h⟩
    | cons b bs =>
      rw [appendToLast_cons2] at h
      rcases List.mem_cons.mp h with rfl | h2
      · exact Or.inl (List.mem_cons_self _ _)
      · rcases ih h2 with h3 | ⟨w', hw', rfl⟩
        · exact Or.inl (List.mem_cons_of_mem a h3)
        · exact Or.inr ⟨w', List.mem_cons_of_mem a hw', rfl⟩

theorem foldl_stepWord_chars : ∀ (s : List Nat) (acc : List (List Nat) × Bool),
    (∀ c ∈ s, c < 128) →
    (∀ w ∈ acc.1, ∀ c ∈ w, isAsciiIdentChar c = true) →
    ∀ w ∈ (s.foldl stepWord acc).1, ∀ c ∈ w, isAsciiIdentChar c = true := by
  intro s
  induction s with
  | nil => intro acc _ hacc; simpa using hacc
  | cons r rest ih =>
    intro acc hs hacc
    rw [List.foldl_cons]
    refine ih (stepWord acc r) (fun c hc => hs c (List.mem_cons_of_mem r hc)) ?_
    intro w hw c hc
    have hr : r < 128 := hs r (List.mem_cons_self r rest)
    unfold stepWord at hw
    by_cases hld : (goIsLetterRune r || goIsDigitRune r) = true
    · rw [if_pos hld] at hw
      by_cases hup : acc.2 = true
      · rw [if_pos hup] at hw
        rcases List.mem_append.mp hw with h1 | h1
        · exact hacc w h1 c hc
        · rw [List.mem_singleton] at h1
          subst h1
          rw [List.mem_singleton] at hc
          subst hc
          exact identChar_goToUpper (identChar_of_letterDigit hr hld)
      · rw [if_neg hup] at hw
        rcases appendToLast_mem hw with h1 | ⟨w', hw', rfl⟩
        · exact hacc w h1 c hc
        · rcases List.mem_append.mp hc with h2 | h2
          · exact hacc w' hw' c h2
          · rw [List.mem_singleton] at h2
            subst h2
            exact identChar_of_letterDigit hr hld
    · rw [if_neg hld] at hw
      exact hacc w hw c hc

theorem splitWords_chars {s : List Nat} (hs : ∀ c ∈ s, c < 128) :
    ∀ w ∈ splitWords s, ∀ c ∈ w, isAsciiIdentChar c = true := by
  intro w hw
  exact foldl_stepWord_chars s ([], true) hs (by simp) w hw

theorem equalFold_chars : ∀ (w cw : List Nat), goEqualFold w cw = true →
    (∀ c ∈ w, isAsciiIdentChar c = true) → (∀ c ∈ cw, c < 128) →
    ∀ c ∈ cw, isAsciiIdentChar c = true := by
  intro w
  induction w with
  | nil =>
    intro cw h _ _ c hc
    cases cw with
    | nil => simp at hc
    | cons b bs => simp [goEqualFold] at h
  | cons a as ih =>
    intro cw h hw hcw c hc
    cases cw with
    | nil => simp at hc
    | cons b bs =>
      rw [goEqualFold, Bool.and_eq_true, beq_iff_eq] at h
      rcases List.mem_cons.mp hc with rfl | h2
      · exact identChar_of_foldEq (hw a (List.mem_cons_self a as))
          (hcw c (List.mem_cons_self c bs)) h.1
      · exact ih bs h.2 (fun x hx => hw x (List.mem_cons_of_mem a hx))
          (fun x hx => hcw x (List.mem_cons_of_mem b hx)) c h2

theorem applyForceCase_chars (fc : List (List Nat)) (w : List Nat)
    (hfc : ∀ u ∈ fc, ∀ c ∈ u, c < 128) (hw : ∀ c ∈ w, isAsciiIdentChar c = true) :
    ∀ c ∈ applyForceCase fc w, isAsciiIdentChar c = true := by
  unfold applyForceCase
  cases hf : fc.find? (fun cw => goEqualFold w cw) with
  | none => simpa using hw
  | some cw =>
    have hmem := List.mem_of_find?_eq_some hf
    have hp := List.find?_some hf
    intro c hc
    exact equalFold_chars w cw hp hw (hfc cw hmem) c hc

theorem foldl_append_chars : ∀ (ws : List (List Nat)) (acc : List Nat),
    (∀ c ∈ acc, isAsciiIdentChar c = true) →
    (∀ w ∈ ws, ∀ c ∈ w, isAsciiIdentChar c = true) →
    ∀ c ∈ ws.foldl (· ++ ·) acc, isAsciiIdentChar c = true := by
  intro ws
  induction ws with
  | nil => intro acc hacc _ c hc; exact hacc c hc
  | cons w ws ih =>
    intro acc hacc hws
    rw [List.foldl_cons]
    refine ih (acc ++ w) (fun c hc => ?_) (fun u hu => hws u (List.mem_cons_of_mem w hu))
    rcases List.mem_append.mp hc with h | h
    · exact hacc c h
    · exact hws w (List.mem_cons_self w ws) c h

theorem exportPrefixFix_nil : exportPrefixFix [] = [69] := rfl

theorem exportPrefixFix_cons (a : Nat) (as : List Nat) :
    exportPrefixFix (a :: as) = if goIsUpperRune a then a :: as else 69 :: a :: as := rfl

theorem exportPrefixFix_ne_nil (r : List Nat) : exportPrefixFix r ≠ [] := by
  cases r with
  | nil => rw [exportPrefixFix_nil]; simp
  | cons a as => rw [exportPrefixFix_cons]; split <;> simp

theorem exportPrefixFix_head (r : List Nat) :
    goIsUpperRune ((exportPrefixFix r).headD 0) = true := by
  cases r with
  | nil => rw [exportPrefixFix_nil]; decide
  | cons a as =>
    rw [exportPrefixFix_cons]
    by_cases h : goIsUpperRune a = true
    · rw [if_pos h]
      simpa using h
    · rw [if_neg h]
      rw [List.headD_cons]
      decide

theorem exportPrefixFix_chars (r : List Nat) (h : ∀ c ∈ r, isAsciiIdentChar c = true) :
    ∀ c ∈ exportPrefixFix r, isAsciiIdentChar c = true := by
  cases r with
  | nil =>
    rw [exportPrefixFix_nil]
    intro c hc
    rw [List.mem_singleton] at hc
    subst hc
    decide
  | cons a as =>
    rw [exportPrefixFix_cons]
    split
    · exact h
    · intro c hc
      rcases List.mem_cons.mp hc with rfl | h2
      · decide
      · exact h c h2

/-- C2 (amended): for every raw name and force-case list the normalizer
output is non-empty and begins with an upper-case rune; when the raw name
and the force-case words are ASCII, every rune of the output is an ASCII
identifier character. -/
theorem c2_normalizer (s : List Nat) (forceCases : List (List Nat)) :
    convertToExportedIdentifier s forceCases ≠ [] ∧
    goIsUpperRune ((convertToExportedIdentifier s forceCases).headD 0) = true ∧
    ((∀ c ∈ s, c < 128) → (∀ u ∈ forceCases, ∀ c ∈ u, c < 128) →
      ∀ c ∈ convertToExportedIdentifier s forceCases, isAsciiIdentChar c = true) := by
  unfold convertToExportedIdentifier
  refine ⟨exportPrefixFix_ne_nil _, exportPrefixFix_head _, ?_⟩
  intro hs hfc
  apply exportPrefixFix_chars
  apply foldl_append_chars _ _ (by simp)
  intro w hw
  rcases List.mem_map.mp hw with ⟨w0, hw0, rfl⟩
  exact applyForceCase_chars forceCases w0 hfc (splitWords_chars hs w0 hw0)

/-- C2 counterexample: the raw name "état" (a Latin-1 letter) normalizes to
"État", which is not ASCII-identifier-safe. -/
theorem c2_counterexample :
    convertToExportedIdentifier (str "état") [] = str "État" ∧
    (convertToExportedIdentifier (str "état") []).all isAsciiIdentChar = false := by decide

/-- Witness for C2: the amended theorem applied to "2fa_token". -/
theorem c2_normalizer_witness :
    convertToExportedIdentifier (str "2fa_token") [] ≠ [] ∧
    goIsUpperRune ((convertToExportedIdentifier (str "2fa_token") []).headD 0) = true ∧
    (convertToExportedIdentifier (str "2fa_token") []).all isAsciiIdentChar = true := by
  have h := c2_normalizer (str "2fa_token") []
  exact ⟨h.1, h.2.1, List.all_eq_true.mpr (fun c hc => h.2.2 (by decide) (by decide) c hc)⟩

/-- The branch of `writeToFile` taken when the file exists and force is
unset: the interactive prompt decides. -/
theorem writeToFile_prompt (b : List Nat) (ans : List Nat) (oe : Option (List Nat)) :
    writeToFile b true false ans oe =
      if ¬ans = str "Y" ∧ ¬ans = str "y" then .skipped
      else match oe with | some e => .failed e | none => .wrote b := by
  unfold writeToFile
  rw [if_pos (show (true && !false) = true from rfl)]

/-- The branch of `writeToFile` taken when the file is absent or force is
set: the write proceeds unconditionally. -/
theorem writeToFile_pass (b : List Nat) (ex force : Bool) (ans : List Nat)
    (oe : Option (List Nat)) (h : (ex && !force) = false) :
    writeToFile b ex force ans oe =
      match oe with | some e => .failed e | none => .wrote b := by
  unfold writeToFile
  rw [if_neg (by simp [h])]

/-- C4: `writeToFile` skips exactly when the file exists, the force flag is
unset, and the prompt answer declines; a skip carries a nil error; with the
force flag set the buffer is written unconditionally. -/
theorem c4_overwrite (buffer : List Nat) (fileExists force : Bool) (answer : List Nat)
    (openErr : Option (List Nat)) :
    (writeToFile buffer fileExists force answer openErr = .skipped ↔
      fileExists = true ∧ force = false ∧ answer ≠ str "Y" ∧ answer ≠ str "y") ∧
    (writeToFile buffer fileExists force answer openErr = .skipped →
      writeToFileErr (writeToFile buffer fileExists force answer openErr) = none) ∧
    (writeToFile buffer fileExists true answer none = .wrote buffer) := by
  refine ⟨⟨fun h => ?_, fun hc => ?_⟩, fun h => ?_, ?_⟩
  · cases fileExists <;> cases force
    · rw [writeToFile_pass _ _ _ _ _ (by decide)] at h
      cases openErr <;> simp at h
    · rw [writeToFile_pass _ _ _ _ _ (by decide)] at h
      cases openErr <;> simp at h
    · rw [writeToFile_prompt] at h
      split at h
      · rename_i hcond
        exact ⟨rfl, rfl, hcond.1, hcond.2⟩
      · cases openErr <;> simp at h
    · rw [writeToFile_pass _ _ _ _ _ (by decide)] at h
      cases openErr <;> simp at h
  · obtain ⟨hex, hf, hY, hy⟩ := hc
    subst hex
    subst hf
    rw [writeToFile_prompt]
    rw [if_pos ⟨hY, hy⟩]
  · rw [h]
    rfl
  · cases fileExists <;> rw [writeToFile_pass _ _ _ _ _ (by decide)]

/-- Witness for C4: with an existing file, no force, and the answer "N",
`writeToFile` skips with a nil error; with force set it writes the buffer. -/
theorem c4_overwrite_witness :
    writeToFile (str "x") true false (str "N") none = .skipped ∧
    writeToFileErr (writeToFile (str "x") true false (str "N") none) = none ∧
    writeToFile (str "x") true true (str "N") none = .wrote (str "x") := by
  have h := c4_overwrite (str "x") true false (str "N") none
  have hskip := h.1.mpr ⟨rfl, rfl, by decide, by decide⟩
  exact ⟨hskip, h.2.1 hskip, h.2.2⟩

/-- C5: the generation loop renders tables strictly in sequence and stops at
the first error: when table `i` fails and all earlier tables succeed, the
error of table `i` is returned and exactly the tables up to and including
position `i` were processed. -/
theorem c5_first_error (fetch : List Nat → Except (List Nat) (List fieldDescriptor))
    (dbName : List Nat) (opts : options) :
    ∀ (ts : List (List Nat)) (i : Nat) (hi : i < ts.length) (e : List Nat),
    generateTable fetch dbName (ts.get ⟨i, hi⟩) opts = Except.error e →
    (∀ j (hj : j < ts.length), j < i →
      ∃ r, generateTable fetch dbName (ts.get ⟨j, hj⟩) opts = Except.ok r) →
    GenerateTables fetch dbName opts ts = (ts.take (i + 1), some e) := by
  intro ts
  induction ts with
  | nil => intro i hi; exact absurd hi (Nat.not_lt_zero i)
  | cons t rest ih =>
    intro i hi e herr hok
    cases i with
    | zero =>
      rw [GenerateTables]
      rw [show (t :: rest).get ⟨0, hi⟩ = t from rfl] at herr
      rw [herr]
      rfl
    | succ k =>
      obtain ⟨r, hr⟩ := hok 0 (Nat.succ_pos _) (Nat.succ_pos k)
      rw [show (t :: rest).get ⟨0, Nat.succ_pos _⟩ = t from rfl] at hr
      rw [GenerateTables, hr]
      have hk : k < rest.length := Nat.lt_of_succ_lt_succ hi
      have herr' : generateTable fetch dbName (rest.get ⟨k, hk⟩) opts = Except.error e := herr
      have hok' : ∀ j (hj : j < rest.length), j < k →
          ∃ r, generateTable fetch dbName (rest.get ⟨j, hj⟩) opts = Except.ok r :=
        fun j hj hlt => hok (j + 1) (Nat.succ_lt_succ hj) (Nat.succ_lt_succ hlt)
      rw [ih k hk e herr' hok']
      rfl

set_option maxRecDepth 20000 in
/-- Witness for C5: of the tables a, b, c only a and b are processed and the
error of b is returned. -/
theorem c5_first_error_witness :
    GenerateTables fetchW (str "d") opts0 [str "a", str "b", str "c"] =
      ([str "a", str "b"], some (str "boom")) := by
  have h := c5_first_error fetchW (str "d") opts0 [str "a", str "b", str "c"] 1 (by decide)
    (str "boom") (by decide)
    (fun j hj hlt => by
      have hj0 : j = 0 := by omega
      subst hj0
      exact ⟨_, rfl⟩)
  exact h.trans (by decide)

/-- C8: the gorm tag style emits a tag carrying the original column name
verbatim, any other style emits no tag, and the rendered text ends with a
TableName accessor returning the original table name as a literal. -/
theorem c8_original_names (fd : fieldDescriptor) (opts : options) (dbName tableName : List Nat)
    (fds : List fieldDescriptor) (txt : List Nat) :
    (opts.tag = str "gorm" →
      getTag fd opts = str "`gorm:\"column:" ++ fd.Name ++ str "\"`") ∧
    (opts.tag ≠ str "gorm" → getTag fd opts = []) ∧
    (generateTableText dbName tableName fds opts = Except.ok txt →
      ∃ p, txt = p ++ (str "func (m " ++ convertToExportedIdentifier tableName opts.forceCases ++
        str ") TableName() string \x7b\n" ++ str "\treturn \"" ++ tableName ++
        str "\"\n\x7d\n\n")) := by
  refine ⟨fun h => ?_, fun h => ?_, fun h => ?_⟩
  · unfold getTag
    rw [if_pos h]
  · unfold getTag
    rw [if_neg h]
  · unfold generateTableText at h
    cases hr : renderFields opts fds with
    | error e => rw [hr] at h; cases h
    | ok pr =>
      rw [hr] at h
      obtain ⟨modeLines, needTime⟩ := pr
      injection h with h
      refine ⟨baseHeader dbName ++ (if needTime then str "import \"time\"\n\n" else []) ++
        str "type " ++ convertToExportedIdentifier tableName opts.forceCases ++
        str " struct \x7b\n" ++ modeLines ++ str "\x7d\n\n", ?_⟩
      rw [← h]

set_option maxRecDepth 20000 in
/-- Witness for C8: the gorm tag for the id column, the empty tag without a
style, and the accessor suffix of the rendered empty table t. -/
theorem c8_original_names_witness :
    getTag fdInt gormOpts = str "`gorm:\"column:" ++ fdInt.Name ++ str "\"`" ∧
    getTag fdInt opts0 = [] ∧
    ∃ p, textDT = p ++ (str "func (m " ++ convertToExportedIdentifier (str "t") opts0.forceCases ++
      str ") TableName() string \x7b\n" ++ str "\treturn \"" ++ str "t" ++
      str "\"\n\x7d\n\n") := by
  refine ⟨(c8_original_names fdInt gormOpts (str "d") (str "t") [] textDT).1 (by decide),
    (c8_original_names fdInt opts0 (str "d") (str "t") [] textDT).2.1 (by decide),
    (c8_original_names fdInt opts0 (str "d") (str "t") [] textDT).2.2 (by decide)⟩

/-- C9: rendering is a function of the database name, table name, ordered
field descriptors and options alone — two successful renders of the same
inputs yield byte-identical text — and a forced overwrite with that text is
idempotent on the modelled file system. -/
theorem c9_deterministic (dbName tableName : List Nat) (fds : List fieldDescriptor)
    (opts : options) (t1 t2 : List Nat) (fs : List Nat → Option (List Nat)) (path : List Nat)
    (h1 : generateTableText dbName tableName fds opts = Except.ok t1)
    (h2 : generateTableText dbName tableName fds opts = Except.ok t2) :
    t1 = t2 ∧ fileWrite (fileWrite fs path t1) path t1 = fileWrite fs path t1 := by
  constructor
  · exact Except.ok.inj (h1.symm.trans h2)
  · funext q
    unfold fileWrite
    by_cases hq : q = path <;> simp [hq]

set_option maxRecDepth 20000 in
/-- Witness for C9: rendering the empty table t twice gives the same bytes
and rewriting them is idempotent. -/
theorem c9_deterministic_witness :
    textDT = textDT ∧
    fileWrite (fileWrite (fun _ => none) (str "p") textDT) (str "p") textDT =
      fileWrite (fun _ => none) (str "p") textDT :=
  c9_deterministic (str "d") (str "t") [] opts0 textDT textDT (fun _ => none) (str "p")
    (by decide) (by decide)

/-- Every rune of the substituted name is a word character. -/
theorem substituted_wordChars (name : List Nat) :
    ∀ c ∈ substituted name, isWordCharRune c = true := by
  intro c hc
  rcases List.mem_map.mp hc with ⟨c0, _, rfl⟩
  by_cases h : isWordCharRune c0 = true
  · rw [if_pos h]
    exact h
  · rw [if_neg h]
    decide

/-- C10: the emitted package identifier is non-empty, consists only of word
characters, does not begin with a digit, and an underscore is prepended to
the substituted name exactly when that name is empty or starts with a
digit (otherwise the substituted name is returned unchanged). -/
theorem c10_ensure_identifier (name : List Nat) :
    ensureIdentifier name ≠ [] ∧
    (ensureIdentifier name).all isWordCharRune = true ∧
    (∀ c cs, ensureIdentifier name = c :: cs → ¬(48 ≤ c ∧ c ≤ 57)) ∧
    (ensureIdentifier name = 95 :: substituted name ↔
      substituted name = [] ∨ ∃ c cs, substituted name = c :: cs ∧ 48 ≤ c ∧ c ≤ 57) ∧
    (¬(substituted name = [] ∨ ∃ c cs, substituted name = c :: cs ∧ 48 ≤ c ∧ c ≤ 57) →
      ensureIdentifier name = substituted name) := by
  cases hs : substituted name with
  | nil =>
    have he : ensureIdentifier name = [95] := by
      unfold ensureIdentifier
      rw [hs]
    refine ⟨by simp [he], by rw [he]; decide, ?_, ?_, ?_⟩
    · intro c cs hc
      rw [he] at hc
      injection hc with h1 h2
      subst h1
      omega
    · rw [he]
      simp
    · intro hno
      exact absurd (Or.inl rfl) hno
  | cons c0 cs0 =>
    have he : ensureIdentifier name =
        if 48 ≤ c0 && c0 ≤ 57 then 95 :: (c0 :: cs0) else (c0 :: cs0) := by
      unfold ensureIdentifier
      rw [hs]
    by_cases hd : (48 ≤ c0 && c0 ≤ 57) = true
    · rw [if_pos hd] at he
      have hd' : 48 ≤ c0 ∧ c0 ≤ 57 := by
        simpa [Bool.and_eq_true, decide_eq_true_eq] using hd
      refine ⟨by simp [he], ?_, ?_, ?_, ?_⟩
      · rw [he, List.all_eq_true]
        intro c hc
        rcases List.mem_cons.mp hc with rfl | h2
        · decide
        · exact substituted_wordChars name c (hs ▸ h2)
      · intro c cs hc
        rw [he] at hc
        injection hc with h1 h2
        subst h1
        omega
      · constructor
        · intro _
          exact Or.inr ⟨c0, cs0, rfl, hd'.1, hd'.2⟩
        · intro _
          exact he
      · intro hno
        exact absurd (Or.inr ⟨c0, cs0, rfl, hd'.1, hd'.2⟩) hno
    · rw [if_neg hd] at he
      have hd' : ¬(48 ≤ c0 ∧ c0 ≤ 57) := by
        simpa [Bool.and_eq_true, decide_eq_true_eq] using hd
      refine ⟨by simp [he], ?_, ?_, ?_, ?_⟩
      · rw [he, List.all_eq_true]
        intro c hc
        exact substituted_wordChars name c (hs ▸ hc)
      · intro c cs hc
        rw [he] at hc
        injection hc with h1 h2
        subst h1
        exact hd'
      · constructor
        · intro hcontra
          rw [he] at hcontra
          have := congrArg List.length hcontra
          simp at this
        · intro hor
          rcases hor with h1 | ⟨c, cs, hceq, h48, h57⟩
          · cases h1
          · injection hceq with hc0 _
            subst hc0
            exact absurd ⟨h48, h57⟩ hd'
      · intro _
        exact he

set_option maxRecDepth 20000 in
/-- Witness for C10: the database name "1a-b" becomes the identifier
"_1a_b". -/
theorem c10_ensure_identifier_witness :
    ensureIdentifier (str "1a-b") ≠ [] ∧
    (ensureIdentifier (str "1a-b")).all isWordCharRune = true ∧
    ¬(48 ≤ 95 ∧ 95 ≤ 57) ∧
    ensureIdentifier (str "1a-b") = 95 :: substituted (str "1a-b") := by
  have h := c10_ensure_identifier (str "1a-b")
  exact ⟨h.1, h.2.1, h.2.2.1 95 (substituted (str "1a-b")) (by decide),
    h.2.2.2.1.mpr (Or.inr ⟨49, str "a_b", by decide, by decide, by decide⟩)⟩

end Sqlmodel
